import Mathlib

/-!
Verification of the table-view engine (data explorer) of this repository.

The engine itself (schema inspection, filter evaluation, sorting, view
materialization, change detection, profiling) lives outside the vendored
sources; only its integration test suite (`crates/ark/tests/data_explorer.rs`)
is present.  The definitions below are therefore modelled from the
specification, with the observable behaviour pinned down by the assertions of
that test suite.  Every definition that models missing code carries a doc
comment starting with `Modelled from the spec:`.
-/

namespace DataExplorer

/-- Modelled from the spec: the declared display type of a column
(`ColumnSchema.type_display_kind`).  The spec names number, text, boolean and
temporal kinds; integer, complex and list kinds appear in the special-value
formatting test. -/
inductive ColType where
  | number
  | text
  | boolean
  | temporal
  | integer
  | complexT
  | listT
deriving DecidableEq, Repr

/-- Modelled from the spec: the closed `ColumnValue` tagged variant consumed by
the filter, sort and profiling engines (Number | Text | Boolean | Temporal |
Missing | Special).  The special values are split into their concrete forms
(NaN, positive and negative infinity, a NULL entry of a list column) because
the formatting layer assigns each its own code. -/
inductive CellValue where
  | number (x : Int)
  | intV (x : Int)
  | text (s : String)
  | bool (b : Bool)
  | temporal (ts : Nat)
  | complexV (re im : Int)
  | listEntry (desc : String)
  | nan
  | posInf
  | negInf
  | missing
  | nullEntry
deriving DecidableEq, Repr

/-- Strict lexicographic comparison of character lists, the native ordering of
text cells. -/
def charListLtB : List Char → List Char → Bool
  | [], [] => false
  | [], _ :: _ => true
  | _ :: _, [] => false
  | c :: cs, d :: ds => if c = d then charListLtB cs ds else decide (c < d)

theorem charListLt_trans :
    ∀ {a b c : List Char}, charListLtB a b = true → charListLtB b c = true →
      charListLtB a c = true := by
  intro a
  induction a with
  | nil =>
      intro b c hab hbc
      cases b with
      | nil => exact absurd hab (by simp [charListLtB])
      | cons y ys =>
          cases c with
          | nil => exact absurd hbc (by simp [charListLtB])
          | cons z zs => rfl
  | cons x xs ih =>
      intro b c hab hbc
      cases b with
      | nil => exact absurd hab (by simp [charListLtB])
      | cons y ys =>
          cases c with
          | nil => exact absurd hbc (by simp [charListLtB])
          | cons z zs =>
              unfold charListLtB at hab hbc ⊢
              rcases eq_or_ne x y with hxy | hxy <;> rcases eq_or_ne y z with hyz | hyz
              · rw [if_pos hxy] at hab
                rw [if_pos hyz] at hbc
                rw [if_pos (hxy.trans hyz)]
                exact ih hab hbc
              · rw [if_pos hxy] at hab
                rw [if_neg hyz] at hbc
                rw [if_neg (hxy ▸ hyz), hxy]
                exact hbc
              · rw [if_neg hxy] at hab
                rw [if_pos hyz] at hbc
                rw [if_neg (hyz ▸ hxy), ← hyz]
                exact hab
              · rw [if_neg hxy] at hab
                rw [if_neg hyz] at hbc
                simp only [decide_eq_true_eq] at hab hbc
                have hxz : x < z := lt_trans hab hbc
                rw [if_neg (ne_of_lt hxz)]
                simp [hxz]

theorem charListLt_asymm :
    ∀ {a b : List Char}, charListLtB a b = true → charListLtB b a = true → False := by
  intro a
  induction a with
  | nil =>
      intro b hab hba
      cases b with
      | nil => exact absurd hab (by simp [charListLtB])
      | cons y ys => exact absurd hba (by simp [charListLtB])
  | cons x xs ih =>
      intro b hab hba
      cases b with
      | nil => exact absurd hab (by simp [charListLtB])
      | cons y ys =>
          unfold charListLtB at hab hba
          rcases eq_or_ne x y with hxy | hxy
          · rw [if_pos hxy] at hab
            rw [if_pos hxy.symm] at hba
            exact ih hab hba
          · rw [if_neg hxy] at hab
            rw [if_neg hxy.symm] at hba
            simp only [decide_eq_true_eq] at hab hba
            exact absurd (lt_trans hab hba) (lt_irrefl _)

theorem charListLt_of_ne :
    ∀ {a b : List Char}, a ≠ b → charListLtB a b = true ∨ charListLtB b a = true := by
  intro a
  induction a with
  | nil =>
      intro b hne
      cases b with
      | nil => exact absurd rfl hne
      | cons y ys => left; rfl
  | cons x xs ih =>
      intro b hne
      cases b with
      | nil => right; rfl
      | cons y ys =>
          unfold charListLtB
          rcases eq_or_ne x y with hxy | hxy
          · rw [if_pos hxy, if_pos hxy.symm]
            refine ih fun hc => hne ?_
            rw [hxy, hc]
          · rw [if_neg hxy, if_neg hxy.symm]
            rcases lt_or_gt_of_ne hxy with h | h
            · left; simp [h]
            · right; simp [h]

/-- One level of a lexicographic comparison: compare the projections, falling
back to the rest of the key on a tie. -/
def lexStepB {β : Type} [DecidableEq β] (lt : β → β → Bool) (pa pb : β) (rest : Bool) : Bool :=
  if pa = pb then rest else lt pa pb

theorem lexStepB_trans {β : Type} [DecidableEq β] {lt : β → β → Bool}
    (htrans : ∀ x y z : β, lt x y = true → lt y z = true → lt x z = true)
    (hasymm : ∀ x y : β, lt x y = true → lt y x = true → False)
    {pa pb pc : β} {rab rbc rac : Bool}
    (hr : rab = true → rbc = true → rac = true)
    (hab : lexStepB lt pa pb rab = true) (hbc : lexStepB lt pb pc rbc = true) :
    lexStepB lt pa pc rac = true := by
  unfold lexStepB at hab hbc ⊢
  rcases eq_or_ne pa pb with h1 | h1 <;> rcases eq_or_ne pb pc with h2 | h2
  · rw [if_pos h1] at hab
    rw [if_pos h2] at hbc
    rw [if_pos (h1.trans h2)]
    exact hr hab hbc
  · rw [if_neg (h1 ▸ h2), h1]
    rwa [if_neg h2] at hbc
  · rw [if_neg (h2 ▸ h1), ← h2]
    rwa [if_neg h1] at hab
  · rw [if_neg h1] at hab
    rw [if_neg h2] at hbc
    have hac : lt pa pc = true := htrans _ _ _ hab hbc
    have hne : pa ≠ pc := fun hc => hasymm _ _ hab (hc ▸ hbc)
    rw [if_neg hne]
    exact hac

theorem lexStepB_asymm {β : Type} [DecidableEq β] {lt : β → β → Bool}
    (hasymm : ∀ x y : β, lt x y = true → lt y x = true → False)
    {pa pb : β} {rab rba : Bool}
    (hr : rab = true → rba = true → False)
    (hab : lexStepB lt pa pb rab = true) (hba : lexStepB lt pb pa rba = true) : False := by
  unfold lexStepB at hab hba
  rcases eq_or_ne pa pb with h | h
  · rw [if_pos h] at hab
    rw [if_pos h.symm] at hba
    exact hr hab hba
  · rw [if_neg h] at hab
    rw [if_neg h.symm] at hba
    exact hasymm _ _ hab hba

theorem lexStepB_of_ne {β : Type} [DecidableEq β] {lt : β → β → Bool}
    (hne : ∀ x y : β, x ≠ y → lt x y = true ∨ lt y x = true)
    {pa pb : β} {rab rba : Bool}
    (h : pa ≠ pb ∨ rab = true ∨ rba = true) :
    lexStepB lt pa pb rab = true ∨ lexStepB lt pb pa rba = true := by
  unfold lexStepB
  rcases eq_or_ne pa pb with he | he
  · rw [if_pos he, if_pos he.symm]
    rcases h with h | h
    · exact absurd he h
    · exact h
  · rw [if_neg he, if_neg he.symm]
    exact hne _ _ he

/-- The constructor tag of a cell in the native ordering: negative infinity
below every finite number, positive infinity above, missing values last. -/
def cellRank : CellValue → Nat
  | .negInf => 0
  | .number _ => 1
  | .intV _ => 2
  | .posInf => 3
  | .nan => 4
  | .text _ => 5
  | .bool _ => 6
  | .temporal _ => 7
  | .complexV _ _ => 8
  | .listEntry _ => 9
  | .nullEntry => 10
  | .missing => 11

/-- The primary numeric component of a cell. -/
def cellNum1 : CellValue → Int
  | .number x => x
  | .intV x => x
  | .bool b => if b then 1 else 0
  | .temporal ts => (ts : Int)
  | .complexV re _ => re
  | _ => 0

/-- The secondary numeric component of a cell. -/
def cellNum2 : CellValue → Int
  | .complexV _ im => im
  | _ => 0

/-- The textual component of a cell. -/
def cellChars : CellValue → List Char
  | .text s => s.toList
  | .listEntry d => d.toList
  | _ => []

theorem cell_eq_of_components {a b : CellValue}
    (h1 : cellRank a = cellRank b) (h2 : cellNum1 a = cellNum1 b)
    (h3 : cellNum2 a = cellNum2 b) (h4 : cellChars a = cellChars b) : a = b := by
  rcases a with x | x | s | b1 | ts | ⟨re, im⟩ | d | _ | _ | _ | _ | _ <;>
    (try cases b1) <;>
    rcases b with y | y | s2 | b2 | ts2 | ⟨re2, im2⟩ | d2 | _ | _ | _ | _ | _ <;>
    (try cases b2) <;>
    simp_all [cellRank, cellNum1, cellNum2, cellChars, String.toList_inj] <;>
    exact congrArg String.mk h4

/-- Modelled from the spec: the native strict ordering of cell values used by
the sort engine.  Numbers order numerically with negative infinity below and
positive infinity above every finite number, text lexicographically, temporal
values chronologically; missing values order last. -/
def cellLtB (a b : CellValue) : Bool :=
  lexStepB (fun x y : Nat => decide (x < y)) (cellRank a) (cellRank b)
    (lexStepB (fun x y : Int => decide (x < y)) (cellNum1 a) (cellNum1 b)
      (lexStepB (fun x y : Int => decide (x < y)) (cellNum2 a) (cellNum2 b)
        (charListLtB (cellChars a) (cellChars b))))

theorem decideLt_trans_nat (x y z : Nat) :
    decide (x < y) = true → decide (y < z) = true → decide (x < z) = true := by
  simp only [decide_eq_true_eq]; omega

theorem decideLt_asymm_nat (x y : Nat) :
    decide (x < y) = true → decide (y < x) = true → False := by
  simp only [decide_eq_true_eq]; omega

theorem decideLt_trans_int (x y z : Int) :
    decide (x < y) = true → decide (y < z) = true → decide (x < z) = true := by
  simp only [decide_eq_true_eq]; omega

theorem decideLt_asymm_int (x y : Int) :
    decide (x < y) = true → decide (y < x) = true → False := by
  simp only [decide_eq_true_eq]; omega

theorem cellLt_trans {a b c : CellValue}
    (hab : cellLtB a b = true) (hbc : cellLtB b c = true) : cellLtB a c = true := by
  unfold cellLtB at hab hbc ⊢
  refine lexStepB_trans decideLt_trans_nat decideLt_asymm_nat ?_ hab hbc
  intro h1 h2
  refine lexStepB_trans decideLt_trans_int decideLt_asymm_int ?_ h1 h2
  intro h3 h4
  refine lexStepB_trans decideLt_trans_int decideLt_asymm_int ?_ h3 h4
  intro h5 h6
  exact charListLt_trans h5 h6

theorem cellLt_asymm {a b : CellValue}
    (hab : cellLtB a b = true) (hba : cellLtB b a = true) : False := by
  unfold cellLtB at hab hba
  refine lexStepB_asymm decideLt_asymm_nat ?_ hab hba
  intro h1 h2
  refine lexStepB_asymm decideLt_asymm_int ?_ h1 h2
  intro h3 h4
  refine lexStepB_asymm decideLt_asymm_int ?_ h3 h4
  intro h5 h6
  exact charListLt_asymm h5 h6

theorem decideLt_of_ne_nat (x y : Nat) (h : x ≠ y) :
    decide (x < y) = true ∨ decide (y < x) = true := by
  simp only [decide_eq_true_eq]; omega

theorem decideLt_of_ne_int (x y : Int) (h : x ≠ y) :
    decide (x < y) = true ∨ decide (y < x) = true := by
  simp only [decide_eq_true_eq]; omega

theorem cellLt_of_ne {a b : CellValue} (h : a ≠ b) :
    cellLtB a b = true ∨ cellLtB b a = true := by
  unfold cellLtB
  refine lexStepB_of_ne decideLt_of_ne_nat ?_
  rcases eq_or_ne (cellRank a) (cellRank b) with hr | hr
  · right
    refine lexStepB_of_ne decideLt_of_ne_int ?_
    rcases eq_or_ne (cellNum1 a) (cellNum1 b) with h1 | h1
    · right
      refine lexStepB_of_ne decideLt_of_ne_int ?_
      rcases eq_or_ne (cellNum2 a) (cellNum2 b) with h2 | h2
      · right
        refine charListLt_of_ne fun hc => h (cell_eq_of_components hr h1 h2 hc)
      · exact Or.inl h2
    · exact Or.inl h1
  · exact Or.inl hr

theorem cellLt_irrefl (a : CellValue) : cellLtB a a = false := by
  cases hc : cellLtB a a
  · rfl
  · exact (cellLt_asymm hc hc).elim

/-- Non-strict cell comparison used by the Compare filter. -/
def cellLeB (a b : CellValue) : Bool :=
  cellLtB a b || decide (a = b)

/-- Modelled from the spec: one column of the source table, carrying its
schema entry (name, declared type) and its cell values. -/
structure ColumnM where
  name : String
  typ : ColType
  cells : List CellValue
deriving DecidableEq, Repr

/-- Modelled from the spec: the source table, an ordered sequence of columns. -/
abbrev TableM := List ColumnM

/-- Number of rows of the (unfiltered) source table. -/
def numRowsM (t : TableM) : Nat :=
  match t with
  | [] => 0
  | c :: _ => c.cells.length

/-- The schema snapshot of a table: ordered column names and declared types. -/
def schemaOfM (t : TableM) : List (String × ColType) :=
  t.map fun c => (c.name, c.typ)

/-- Resolve the column a filter refers to, by name. -/
def lookupColM (t : TableM) (nm : String) : Option ColumnM :=
  t.find? fun c => decide (c.name = nm)

/-- The cell of a column at a row index; missing when out of range. -/
def cellAtM (c : ColumnM) (row : Nat) : CellValue :=
  c.cells.getD row .missing

/-- Modelled from the spec: the comparison operators of a Compare filter. -/
inductive CompareOp where
  | lt
  | lte
  | gt
  | gte
  | eq
  | neq
deriving DecidableEq, Repr

/-- Modelled from the spec: text-search modes.  The regex mode of the source
protocol is omitted from the model: no claim depends on regular-expression
matching. -/
inductive SearchMode where
  | contains
  | startsWith
  | endsWith
deriving DecidableEq, Repr

/-- Modelled from the spec: the AND/OR combine flag of a row filter. -/
inductive FilterCondition where
  | and
  | or
deriving DecidableEq, Repr

/-- Modelled from the spec: the closed set of filter kinds. -/
inductive FilterKind where
  | compare (op : CompareOp) (literal : String)
  | notNull
  | isNull
  | isEmpty
  | isTrue
  | isFalse
  | textSearch (mode : SearchMode) (term : String) (caseSensitive : Bool)
  | setMembership (values : List String) (inclusive : Bool)
deriving DecidableEq, Repr

/-- Modelled from the spec: a row filter.  The referenced column is carried as
the column name recorded in the `column_schema` of the protocol filter; the
live-update tests show that filters re-attach to columns by name after schema
changes. -/
structure RowFilterM where
  filterId : String
  colName : String
  kind : FilterKind
  condition : FilterCondition
deriving DecidableEq, Repr

/-- Parse a decimal digit string. -/
def parseNatM (s : String) : Option Nat :=
  let cs := s.toList
  if cs ≠ [] ∧ cs.all Char.isDigit then
    some (cs.foldl (fun n c => 10 * n + (c.toNat - 48)) 0)
  else none

/-- Parse an optionally negated decimal digit string. -/
def parseIntM (s : String) : Option Int :=
  match s.toList with
  | '-' :: rest =>
      if rest ≠ [] ∧ rest.all Char.isDigit then
        some (-(rest.foldl (fun n c => 10 * n + (c.toNat - 48)) 0 : Nat))
      else none
  | _ => (parseNatM s).map fun n => (n : Int)

/-- Modelled from the spec: parse a filter literal against the declared type of
the referenced column.  The concrete literal grammar is reduced to integer
numerals for numeric and temporal columns; this is faithful for every literal
exercised by the test suite (temporal literals such as `marshmallows` fail to
parse, numeric literals such as `60` succeed). -/
def parseLiteralM : ColType → String → Option CellValue
  | .number, s => (parseIntM s).map .number
  | .integer, s => (parseIntM s).map .intV
  | .text, s => some (.text s)
  | .boolean, s =>
      if s = "TRUE" then some (.bool true)
      else if s = "FALSE" then some (.bool false)
      else none
  | .temporal, s => (parseNatM s).map .temporal
  | .complexT, _ => none
  | .listT, _ => none

/-- Modelled from the spec: per-kind validity of a filter against the current
column.  A Compare filter is invalid when its literal cannot be parsed against
the declared column type; IsEmpty applies only to text columns; IsTrue and
IsFalse only to boolean columns. -/
def kindValidity (col : ColumnM) : FilterKind → Option String
  | .compare _ lit =>
      match parseLiteralM col.typ lit with
      | some _ => none
      | none => some ("cannot parse literal " ++ lit ++ " against the column type")
  | .isEmpty => if col.typ = .text then none else some "is-empty requires a text column"
  | .isTrue => if col.typ = .boolean then none else some "is-true requires a boolean column"
  | .isFalse => if col.typ = .boolean then none else some "is-false requires a boolean column"
  | _ => none

/-- Modelled from the spec: validity of a filter against the current table.
Recomputed on every call; never cached across change cycles. -/
def filterValidityM (t : TableM) (f : RowFilterM) : Option String :=
  match lookupColM t f.colName with
  | none => some ("column " ++ f.colName ++ " not found in the table")
  | some col => kindValidity col f.kind

/-- Character-list prefix test. -/
def startsWithL : List Char → List Char → Bool
  | _, [] => true
  | [], _ :: _ => false
  | c :: cs, p :: ps => decide (c = p) && startsWithL cs ps

/-- Character-list substring test. -/
def containsSubL : List Char → List Char → Bool
  | [], sub => sub.isEmpty
  | c :: cs, sub => startsWithL (c :: cs) sub || containsSubL cs sub

/-- Modelled from the spec: the text-search predicate; case sensitivity is
configurable and handled by lower-casing both sides when insensitive. -/
def searchPredM (mode : SearchMode) (term : String) (cs : Bool) (s : String) : Bool :=
  let subject := if cs then s.toList else s.toList.map Char.toLower
  let pat := if cs then term.toList else term.toList.map Char.toLower
  match mode with
  | .contains => containsSubL subject pat
  | .startsWith => startsWithL subject pat
  | .endsWith => startsWithL subject.reverse pat.reverse

/-- Modelled from the spec: the Compare predicate on one cell against the
parsed literal.  Missing values and NaN never satisfy any comparison. -/
def compareCellsM (op : CompareOp) (cell lit : CellValue) : Bool :=
  match cell with
  | .missing => false
  | .nan => false
  | .nullEntry => false
  | _ =>
    match op with
    | .eq => decide (cell = lit)
    | .neq => decide (cell ≠ lit)
    | .lt => cellLtB cell lit
    | .lte => cellLeB cell lit
    | .gt => cellLtB lit cell
    | .gte => cellLeB lit cell

/-- Modelled from the spec: the per-row predicate of a (valid) filter kind over
one column.  Missing-value policy: NotNull and IsNull detect missingness
independent of type; IsEmpty matches only the empty string; IsTrue and IsFalse
never match missing; text search never matches missing; SetMembership compares
the cell against the literal set coerced to the column type (literals that do
not parse are dropped), with exclusive mode taking the plain complement. -/
def kindPredM (col : ColumnM) (k : FilterKind) (row : Nat) : Bool :=
  let cell := cellAtM col row
  match k with
  | .compare op lit =>
      match parseLiteralM col.typ lit with
      | some v => compareCellsM op cell v
      | none => true
  | .notNull => decide (cell ≠ .missing)
  | .isNull => decide (cell = .missing)
  | .isEmpty => decide (cell = .text "")
  | .isTrue => decide (cell = .bool true)
  | .isFalse => decide (cell = .bool false)
  | .textSearch mode term cs =>
      match cell with
      | .text s => searchPredM mode term cs s
      | _ => false
  | .setMembership values inclusive =>
      let pset := values.filterMap (parseLiteralM col.typ)
      if inclusive then decide (cell ∈ pset) else !decide (cell ∈ pset)

/-- Modelled from the spec: the per-row mask of a single filter.  An invalid
filter (unresolvable column or kind-level invalidity) is fail-open: every row
passes it. -/
def filterMaskM (t : TableM) (f : RowFilterM) : List Bool :=
  match lookupColM t f.colName with
  | none => List.replicate (numRowsM t) true
  | some col =>
      match kindValidity col f.kind with
      | some _ => List.replicate (numRowsM t) true
      | none => (List.range (numRowsM t)).map (kindPredM col f.kind)

/-- Combine a running mask with the mask of one filter using its AND/OR flag. -/
def combineMasks (cond : FilterCondition) (acc m : List Bool) : List Bool :=
  match cond with
  | .and => List.zipWith (fun a b => a && b) acc m
  | .or => List.zipWith (fun a b => a || b) acc m

/-- Modelled from the spec: filters combine left to right; the first filter
seeds the mask (its own flag is ignored) and each subsequent mask is combined
using that filter's flag. -/
def combinedMaskM (t : TableM) : List RowFilterM → List Bool
  | [] => List.replicate (numRowsM t) true
  | f :: fs => fs.foldl (fun acc g => combineMasks g.condition acc (filterMaskM t g)) (filterMaskM t f)

/-- The selected source row indices, in source order. -/
def selectedIndicesM (t : TableM) (fs : List RowFilterM) : List Nat :=
  (List.range (numRowsM t)).filter fun i => (combinedMaskM t fs).getD i false

/-- Modelled from the spec: a sort key, referencing a column by position. -/
structure SortKeyM where
  columnIndex : Nat
  ascending : Bool
deriving DecidableEq, Repr

/-- The cell a sort key reads for a source row. -/
def keyCellM (t : TableM) (k : SortKeyM) (i : Nat) : CellValue :=
  match t.get? k.columnIndex with
  | none => .missing
  | some col => cellAtM col i

/-- The strict per-key comparison; a descending key reverses only this
comparison. -/
def keyLtB (t : TableM) (k : SortKeyM) (i j : Nat) : Bool :=
  if k.ascending then cellLtB (keyCellM t k i) (keyCellM t k j)
  else cellLtB (keyCellM t k j) (keyCellM t k i)

theorem keyLt_asymm {t : TableM} {k : SortKeyM} {i j : Nat}
    (hij : keyLtB t k i j = true) (hji : keyLtB t k j i = true) : False := by
  obtain ⟨ci, asc⟩ := k
  unfold keyLtB at hij hji
  cases asc <;>
    simp only [Bool.false_eq_true, if_true, if_false] at hij hji <;>
    exact cellLt_asymm hij hji

theorem keyLt_trans {t : TableM} {k : SortKeyM} {i j l : Nat}
    (hij : keyLtB t k i j = true) (hjl : keyLtB t k j l = true) : keyLtB t k i l = true := by
  obtain ⟨ci, asc⟩ := k
  unfold keyLtB at hij hjl ⊢
  cases asc <;>
    simp only [Bool.false_eq_true, if_true, if_false] at hij hjl ⊢ <;>
    [exact cellLt_trans hjl hij; exact cellLt_trans hij hjl]

theorem keyLt_of_ne {t : TableM} {k : SortKeyM} {i j : Nat}
    (h : keyCellM t k i ≠ keyCellM t k j) :
    keyLtB t k i j = true ∨ keyLtB t k j i = true := by
  obtain ⟨ci, asc⟩ := k
  unfold keyLtB
  rcases cellLt_of_ne h with hlt | hgt
  · cases asc <;> simp [hlt]
  · cases asc <;> simp [hgt]

theorem keyLt_ne {t : TableM} {k : SortKeyM} {i j : Nat}
    (h : keyLtB t k i j = true) : keyCellM t k i ≠ keyCellM t k j := by
  obtain ⟨ci, asc⟩ := k
  unfold keyLtB at h
  cases asc <;>
    simp only [Bool.false_eq_true, if_true, if_false] at h
  · intro hc
    rw [hc] at h
    rw [cellLt_irrefl] at h
    exact Bool.false_ne_true h
  · intro hc
    rw [hc] at h
    rw [cellLt_irrefl] at h
    exact Bool.false_ne_true h

/-- Modelled from the spec: the multi-key row ordering.  Earlier keys take
priority; rows tied under every key fall back to source row order, which makes
the order total and antisymmetric (hence the sort stable and its result
unique). -/
def rowLeB (t : TableM) : List SortKeyM → Nat → Nat → Bool
  | [], i, j => decide (i ≤ j)
  | k :: ks, i, j =>
      if keyCellM t k i = keyCellM t k j then rowLeB t ks i j
      else keyLtB t k i j

def rowLeM (t : TableM) (ks : List SortKeyM) (i j : Nat) : Prop :=
  rowLeB t ks i j = true

instance (t : TableM) (ks : List SortKeyM) : DecidableRel (rowLeM t ks) := fun i j => by
  unfold rowLeM; infer_instance

theorem rowLe_total (t : TableM) (ks : List SortKeyM) (i j : Nat) :
    rowLeM t ks i j ∨ rowLeM t ks j i := by
  induction ks with
  | nil => unfold rowLeM rowLeB; rcases Nat.le_total i j with h | h <;> simp [h]
  | cons k ks ih =>
      unfold rowLeM rowLeB
      rcases eq_or_ne (keyCellM t k i) (keyCellM t k j) with h | h
      · simpa [h] using ih
      · simpa [h, h.symm] using keyLt_of_ne h

theorem rowLe_trans (t : TableM) (ks : List SortKeyM) :
    ∀ {i j l : Nat}, rowLeM t ks i j → rowLeM t ks j l → rowLeM t ks i l := by
  induction ks with
  | nil =>
      intro i j l hij hjl
      unfold rowLeM rowLeB at *
      simp only [decide_eq_true_eq] at *
      omega
  | cons k ks ih =>
      intro i j l hij hjl
      unfold rowLeM rowLeB at hij hjl ⊢
      rcases eq_or_ne (keyCellM t k i) (keyCellM t k j) with hij' | hij' <;>
        rcases eq_or_ne (keyCellM t k j) (keyCellM t k l) with hjl' | hjl'
      · rw [if_pos hij'] at hij
        rw [if_pos hjl'] at hjl
        rw [if_pos (hij'.trans hjl')]
        exact ih hij hjl
      · rw [if_pos hij'] at hij
        rw [if_neg hjl'] at hjl
        have hil : keyCellM t k i ≠ keyCellM t k l := hij' ▸ hjl'
        rw [if_neg hil]
        unfold keyLtB at hjl ⊢
        rw [show keyCellM t k i = keyCellM t k j from hij']
        exact hjl
      · rw [if_neg hij'] at hij
        rw [if_pos hjl'] at hjl
        have hil : keyCellM t k i ≠ keyCellM t k l := fun hc => hij' (hc.trans hjl'.symm)
        rw [if_neg hil]
        unfold keyLtB at hij ⊢
        rw [show keyCellM t k l = keyCellM t k j from hjl'.symm]
        exact hij
      · rw [if_neg hij'] at hij
        rw [if_neg hjl'] at hjl
        have hil := keyLt_trans hij hjl
        rw [if_neg (keyLt_ne hil)]
        exact hil

theorem rowLe_antisymm (t : TableM) (ks : List SortKeyM) :
    ∀ {i j : Nat}, rowLeM t ks i j → rowLeM t ks j i → i = j := by
  induction ks with
  | nil =>
      intro i j hij hji
      unfold rowLeM rowLeB at *
      simp only [decide_eq_true_eq] at *
      omega
  | cons k ks ih =>
      intro i j hij hji
      unfold rowLeM rowLeB at hij hji
      rcases eq_or_ne (keyCellM t k i) (keyCellM t k j) with h | h
      · rw [if_pos h] at hij
        rw [if_pos h.symm] at hji
        exact ih hij hji
      · rw [if_neg h] at hij
        rw [if_neg h.symm] at hji
        exact (keyLt_asymm hij hji).elim

theorem rowLe_refl (t : TableM) (ks : List SortKeyM) (i : Nat) : rowLeM t ks i i := by
  rcases rowLe_total t ks i i with h | h <;> exact h

/-- Modelled from the spec: the materialized view, i.e. the selected source row
indices ordered by the stable multi-key sort.  With no sort keys the relation
degenerates to source row order, so the selection order is preserved. -/
def viewIndicesM (t : TableM) (fs : List RowFilterM) (ks : List SortKeyM) : List Nat :=
  List.insertionSort (rowLeM t ks) (selectedIndicesM t fs)

instance (t : TableM) (ks : List SortKeyM) : IsTotal Nat (rowLeM t ks) :=
  ⟨rowLe_total t ks⟩

instance (t : TableM) (ks : List SortKeyM) : IsTrans Nat (rowLeM t ks) :=
  ⟨fun _ _ _ => rowLe_trans t ks⟩

instance (t : TableM) (ks : List SortKeyM) : IsAntisymm Nat (rowLeM t ks) :=
  ⟨fun _ _ => rowLe_antisymm t ks⟩

theorem rowLe_nil_iff (t : TableM) (i j : Nat) : rowLeM t [] i j ↔ i ≤ j := by
  unfold rowLeM rowLeB; simp

theorem rowLe_cons_tie (t : TableM) (k : SortKeyM) (ks : List SortKeyM) (i j : Nat)
    (h : keyCellM t k i = keyCellM t k j) :
    rowLeM t (k :: ks) i j ↔ rowLeM t ks i j := by
  unfold rowLeM
  conv_lhs => rw [rowLeB]
  rw [if_pos h]

theorem rowLe_cons_ne (t : TableM) (k : SortKeyM) (ks : List SortKeyM) (i j : Nat)
    (h : keyCellM t k i ≠ keyCellM t k j) :
    rowLeM t (k :: ks) i j ↔ keyLtB t k i j = true := by
  unfold rowLeM
  conv_lhs => rw [rowLeB]
  rw [if_neg h]

theorem rowLe_tied (t : TableM) (ks : List SortKeyM) (i j : Nat)
    (h : ∀ k ∈ ks, keyCellM t k i = keyCellM t k j) :
    rowLeM t ks i j ↔ i ≤ j := by
  induction ks with
  | nil => exact rowLe_nil_iff t i j
  | cons k ks ih =>
      rw [rowLe_cons_tie t k ks i j (h k (List.mem_cons_self k ks))]
      exact ih fun k' hk' => h k' (List.mem_cons_of_mem k hk')

theorem selected_sorted_lt (t : TableM) (fs : List RowFilterM) :
    List.Sorted (· < ·) (selectedIndicesM t fs) :=
  (List.pairwise_lt_range (numRowsM t)).filter _

theorem selected_nodup (t : TableM) (fs : List RowFilterM) :
    (selectedIndicesM t fs).Nodup :=
  (List.nodup_range (numRowsM t)).filter _

theorem view_perm (t : TableM) (fs : List RowFilterM) (ks : List SortKeyM) :
    (viewIndicesM t fs ks).Perm (selectedIndicesM t fs) :=
  List.perm_insertionSort (rowLeM t ks) (selectedIndicesM t fs)

theorem view_sorted (t : TableM) (fs : List RowFilterM) (ks : List SortKeyM) :
    List.Sorted (rowLeM t ks) (viewIndicesM t fs ks) :=
  List.sorted_insertionSort (rowLeM t ks) (selectedIndicesM t fs)

theorem view_nodup (t : TableM) (fs : List RowFilterM) (ks : List SortKeyM) :
    (viewIndicesM t fs ks).Nodup :=
  ((view_perm t fs ks).nodup_iff).mpr (selected_nodup t fs)

theorem view_nil (t : TableM) (fs : List RowFilterM) :
    viewIndicesM t fs [] = selectedIndicesM t fs := by
  apply List.Sorted.insertionSort_eq
  exact ((selected_sorted_lt t fs).imp fun {a b} h => (rowLe_nil_iff t a b).mpr (le_of_lt h))

theorem view_sort_fixpoint (t : TableM) (fs : List RowFilterM) (ks : List SortKeyM) :
    List.insertionSort (rowLeM t ks) (viewIndicesM t fs ks) = viewIndicesM t fs ks :=
  (view_sorted t fs ks).insertionSort_eq

/-- In a sorted, duplicate-free list the position order of two distinct
members coincides with the sorting relation. -/
theorem sorted_indexOf_lt_iff {r : Nat → Nat → Prop} [DecidableRel r]
    [IsTotal Nat r] [IsAntisymm Nat r] {l : List Nat} (hs : List.Sorted r l)
    {a b : Nat} (ha : a ∈ l) (hb : b ∈ l) (hab : a ≠ b) :
    (l.indexOf a < l.indexOf b ↔ r a b) := by
  have hal : l.indexOf a < l.length := List.indexOf_lt_length.mpr ha
  have hbl : l.indexOf b < l.length := List.indexOf_lt_length.mpr hb
  constructor
  · intro hlt
    have := hs.rel_get_of_lt (a := ⟨l.indexOf a, hal⟩) (b := ⟨l.indexOf b, hbl⟩) hlt
    rwa [List.indexOf_get, List.indexOf_get] at this
  · intro hr
    rcases Nat.lt_trichotomy (l.indexOf a) (l.indexOf b) with h | h | h
    · exact h
    · exfalso
      apply hab
      have : l.get ⟨l.indexOf a, hal⟩ = l.get ⟨l.indexOf b, hbl⟩ := by
        congr 1
        exact Fin.ext h
      rwa [List.indexOf_get, List.indexOf_get] at this
    · exfalso
      have := hs.rel_get_of_lt (a := ⟨l.indexOf b, hbl⟩) (b := ⟨l.indexOf a, hal⟩) h
      rw [List.indexOf_get, List.indexOf_get] at this
      exact hab (antisymm hr this)

/-- Modelled from the spec: a cell of a reply is either a formatted string or a
numeric special-value code. -/
inductive ColumnValueM where
  | formatted (s : String)
  | special (code : Nat)
deriving DecidableEq, Repr

/-- Modelled from the spec: display formatting of one cell.  Missing values of
every column type map to code 1, NaN to 2, positive infinity to 10, negative
infinity to 11 and a NULL entry of a list column to 0; every other value is
rendered as a formatted string. -/
def formatCellM : CellValue → ColumnValueM
  | .number x => .formatted (toString x)
  | .intV x => .formatted (toString x)
  | .text s => .formatted s
  | .bool b => .formatted (if b then "TRUE" else "FALSE")
  | .temporal ts => .formatted (toString ts)
  | .complexV re im => .formatted (toString re ++ "+" ++ toString im ++ "i")
  | .listEntry d => .formatted d
  | .nullEntry => .special 0
  | .missing => .special 1
  | .nan => .special 2
  | .posInf => .special 10
  | .negInf => .special 11

/-- Modelled from the spec: the per-open-table View Session state.  The change
detector is a state machine with a terminal Closed state, recorded here as the
`isClosed` flag. -/
structure SessionM where
  table : TableM
  filters : List RowFilterM
  sortKeys : List SortKeyM
  isClosed : Bool
deriving DecidableEq, Repr

def openSession (t : TableM) : SessionM := ⟨t, [], [], false⟩

/-- Modelled from the spec: the reply of SetRowFilters — the selected row count
of the new view and whether any filter errored. -/
structure FilterResultM where
  selectedNumRows : Nat
  hadErrors : Bool
deriving DecidableEq, Repr

def setRowFiltersM (s : SessionM) (fs : List RowFilterM) : SessionM × FilterResultM :=
  let s' := { s with filters := fs }
  (s', ⟨(viewIndicesM s'.table fs s'.sortKeys).length,
        fs.any fun f => (filterValidityM s'.table f).isSome⟩)

def setSortColumnsM (s : SessionM) (ks : List SortKeyM) : SessionM :=
  { s with sortKeys := ks }

/-- The per-filter validity snapshot reported by GetState. -/
structure FilterStateM where
  filter : RowFilterM
  isValid : Bool
  errorMessage : Option String
deriving DecidableEq, Repr

def filterStateOf (t : TableM) (f : RowFilterM) : FilterStateM :=
  match filterValidityM t f with
  | none => ⟨f, true, none⟩
  | some msg => ⟨f, false, some msg⟩

/-- Modelled from the spec: the GetState reply — filters with their validity,
sort keys, the current view shape and the unfiltered shape. -/
structure StateReplyM where
  rowFilters : List FilterStateM
  sortKeys : List SortKeyM
  numRows : Nat
  numRowsUnfiltered : Nat
deriving DecidableEq, Repr

def getStateM (s : SessionM) : StateReplyM :=
  ⟨s.filters.map (filterStateOf s.table),
   s.sortKeys,
   (viewIndicesM s.table s.filters s.sortKeys).length,
   numRowsM s.table⟩

/-- A per-column row selection of a GetDataValues request. -/
structure ColumnSelectionM where
  columnIndex : Nat
  rowIndices : List Nat
deriving DecidableEq, Repr

/-- Modelled from the spec: GetDataValues renders the requested cells of the
current view; out-of-range row or column indices are silently dropped from the
reply rather than failing the call. -/
def getDataValuesM (s : SessionM) (cols : List ColumnSelectionM) : List (List ColumnValueM) :=
  let view := viewIndicesM s.table s.filters s.sortKeys
  (cols.filter fun c => decide (c.columnIndex < s.table.length)).map fun c =>
    c.rowIndices.filterMap fun ri =>
      (view.get? ri).map fun si =>
        formatCellM (cellAtM ((s.table.get? c.columnIndex).getD ⟨"", .text, []⟩) si)

/-- Modelled from the spec: the NullCount profile — the number of missing
values of the column restricted to the current view. -/
def nullCountM (s : SessionM) (colIdx : Nat) : Nat :=
  let view := viewIndicesM s.table s.filters s.sortKeys
  match s.table.get? colIdx with
  | none => 0
  | some col => (view.map (cellAtM col)).countP fun c => decide (c = .missing)

/-- The event pushed to the client after a change-detection tick. -/
inductive UpdateEventM where
  | dataUpdate
  | schemaUpdate
  | closeEvent
  | noEvent
deriving DecidableEq, Repr

/-- Modelled from the spec: one externally triggered change-detection tick.
If the source no longer resolves the session transitions to the terminal
Closed state and emits a close event; otherwise an identical schema with
different data yields DataUpdate (schema kept), a different schema yields
SchemaUpdate (schema replaced wholesale, filters and sort keys retained) and
no difference yields no event. -/
def tickM (s : SessionM) (src : Option TableM) : SessionM × UpdateEventM :=
  if s.isClosed then (s, .noEvent)
  else
    match src with
    | none => ({ s with isClosed := true }, .closeEvent)
    | some t =>
        if schemaOfM t = schemaOfM s.table then
          if t = s.table then (s, .noEvent)
          else ({ s with table := t }, .dataUpdate)
        else ({ s with table := t }, .schemaUpdate)

/-- The request vocabulary of the session mailbox used by the model. -/
inductive RequestM where
  | getState
  | setRowFilters (fs : List RowFilterM)
  | setSortColumns (ks : List SortKeyM)
  | getDataValues (cols : List ColumnSelectionM)
  | getNullCount (colIdx : Nat)
deriving DecidableEq, Repr

inductive ReplyM where
  | state (r : StateReplyM)
  | filterResult (r : FilterResultM)
  | ack
  | dataValues (v : List (List ColumnValueM))
  | nullCount (n : Nat)
deriving DecidableEq, Repr

/-- Modelled from the spec: the serialized request handler of a session.  A
closed session issues no further replies. -/
def handleM (s : SessionM) (req : RequestM) : Option (SessionM × ReplyM) :=
  if s.isClosed then none
  else
    some
      (match req with
       | .getState => (s, .state (getStateM s))
       | .setRowFilters fs =>
           let p := setRowFiltersM s fs
           (p.1, .filterResult p.2)
       | .setSortColumns ks => (setSortColumnsM s ks, .ack)
       | .getDataValues cols => (s, .dataValues (getDataValuesM s cols))
       | .getNullCount i => (s, .nullCount (nullCountM s i)))

end DataExplorer

namespace DataExplorer

theorem filterMask_length (t : TableM) (f : RowFilterM) :
    (filterMaskM t f).length = numRowsM t := by
  unfold filterMaskM
  rcases hc : lookupColM t f.colName with _ | col
  · simp [hc]
  · rcases hv : kindValidity col f.kind with _ | msg <;> simp [hc, hv]

theorem combineMasks_length (c : FilterCondition) (as bs : List Bool) :
    (combineMasks c as bs).length = min as.length bs.length := by
  cases c <;> simp [combineMasks]

theorem combined_foldl_length (t : TableM) (fs : List RowFilterM) (acc : List Bool)
    (h : acc.length = numRowsM t) :
    (fs.foldl (fun acc g => combineMasks g.condition acc (filterMaskM t g)) acc).length
      = numRowsM t := by
  induction fs generalizing acc with
  | nil => exact h
  | cons g gs ih =>
      simp only [List.foldl_cons]
      exact ih _ (by rw [combineMasks_length, h, filterMask_length]; simp)

theorem combinedMask_length (t : TableM) (fs : List RowFilterM) :
    (combinedMaskM t fs).length = numRowsM t := by
  cases fs with
  | nil => simp [combinedMaskM]
  | cons f fs => exact combined_foldl_length t fs _ (filterMask_length t f)

theorem zipWith_getD_bool (f : Bool → Bool → Bool) :
    ∀ (as bs : List Bool) (i : Nat), i < as.length → i < bs.length →
      (List.zipWith f as bs).getD i false = f (as.getD i false) (bs.getD i false) := by
  intro as
  induction as with
  | nil => intro bs i h1 _; exact absurd h1 (by simp)
  | cons a as ih =>
      intro bs i h1 h2
      cases bs with
      | nil => exact absurd h2 (by simp)
      | cons b bs =>
          cases i with
          | zero => simp
          | succ n =>
              simp only [List.zipWith_cons_cons, List.getD_cons_succ]
              exact ih bs n (by simpa using h1) (by simpa using h2)

theorem getD_map_range (g : Nat → Bool) (n i : Nat) (h : i < n) :
    ((List.range n).map g).getD i false = g i := by
  rw [List.getD_eq_getElem _ _ (by simpa using h)]
  simp [h]

theorem getD_replicate_true (n i : Nat) (h : i < n) :
    (List.replicate n true).getD i false = true := by
  rw [List.getD_eq_getElem _ _ (by simpa using h)]
  simp

/-- A fail-open (all-true) combined mask selects every source row. -/
theorem selected_of_mask_replicate (t : TableM) (fs : List RowFilterM)
    (h : combinedMaskM t fs = List.replicate (numRowsM t) true) :
    selectedIndicesM t fs = List.range (numRowsM t) := by
  unfold selectedIndicesM
  rw [List.filter_eq_self]
  intro i hi
  rw [h, getD_replicate_true _ _ (List.mem_range.mp hi)]

/-- The mask of a single valid filter is the pointwise predicate of its kind. -/
theorem filterMask_valid (t : TableM) (f : RowFilterM) (col : ColumnM)
    (hcol : lookupColM t f.colName = some col)
    (hval : kindValidity col f.kind = none) :
    filterMaskM t f = (List.range (numRowsM t)).map (kindPredM col f.kind) := by
  unfold filterMaskM
  simp only [hcol, hval]

/-- Membership of the selection of a single valid filter. -/
theorem mem_selected_single (t : TableM) (f : RowFilterM) (col : ColumnM)
    (hcol : lookupColM t f.colName = some col)
    (hval : kindValidity col f.kind = none) (i : Nat) :
    i ∈ selectedIndicesM t [f] ↔ i < numRowsM t ∧ kindPredM col f.kind i = true := by
  unfold selectedIndicesM
  rw [List.mem_filter, List.mem_range]
  constructor
  · rintro ⟨hi, hmask⟩
    refine ⟨hi, ?_⟩
    rwa [show combinedMaskM t [f] = filterMaskM t f from rfl,
      filterMask_valid t f col hcol hval, getD_map_range _ _ _ hi] at hmask
  · rintro ⟨hi, hpred⟩
    refine ⟨hi, ?_⟩
    rwa [show combinedMaskM t [f] = filterMaskM t f from rfl,
      filterMask_valid t f col hcol hval, getD_map_range _ _ _ hi]

/-- The selection of a single valid filter, as a filter of the row range. -/
theorem selected_single_eq (t : TableM) (f : RowFilterM) (col : ColumnM)
    (hcol : lookupColM t f.colName = some col)
    (hval : kindValidity col f.kind = none) :
    selectedIndicesM t [f] = (List.range (numRowsM t)).filter (kindPredM col f.kind) := by
  unfold selectedIndicesM
  apply List.filter_congr
  intro i hi
  rw [show combinedMaskM t [f] = filterMaskM t f from rfl,
    filterMask_valid t f col hcol hval, getD_map_range _ _ _ (List.mem_range.mp hi)]

theorem parseLiteral_not_missing :
    ∀ (ty : ColType) (lit : String) (v : CellValue),
      parseLiteralM ty lit = some v → v ≠ CellValue.missing := by
  intro ty lit v h hv
  subst hv
  cases ty <;> simp [parseLiteralM] at h
  split_ifs at h <;> simp_all

theorem missing_not_mem_parsed (ty : ColType) (vals : List String) :
    CellValue.missing ∉ vals.filterMap (parseLiteralM ty) := by
  intro hmem
  rcases List.mem_filterMap.mp hmem with ⟨lit, _, hparse⟩
  exact parseLiteral_not_missing ty lit _ hparse rfl

theorem tick_preserves_filters (s : SessionM) (src : Option TableM) :
    ((tickM s src).1).filters = s.filters := by
  unfold tickM
  split
  · rfl
  · cases src with
    | none => rfl
    | some t =>
        simp only []
        split
        · split <;> rfl
        · rfl

theorem tick_preserves_sortKeys (s : SessionM) (src : Option TableM) :
    ((tickM s src).1).sortKeys = s.sortKeys := by
  unfold tickM
  split
  · rfl
  · cases src with
    | none => rfl
    | some t =>
        simp only []
        split
        · split <;> rfl
        · rfl

/-- Folding any sequence of change-detection ticks into a session. -/
def foldTicks (s : SessionM) (srcs : List (Option TableM)) : SessionM :=
  srcs.foldl (fun st src => (tickM st src).1) s

theorem foldTicks_filters (s : SessionM) (srcs : List (Option TableM)) :
    (foldTicks s srcs).filters = s.filters := by
  induction srcs generalizing s with
  | nil => rfl
  | cons src srcs ih =>
      unfold foldTicks
      simp only [List.foldl_cons]
      rw [show List.foldl (fun st src => (tickM st src).1) (tickM s src).1 srcs
          = foldTicks (tickM s src).1 srcs from rfl, ih, tick_preserves_filters]

theorem foldTicks_sortKeys (s : SessionM) (srcs : List (Option TableM)) :
    (foldTicks s srcs).sortKeys = s.sortKeys := by
  induction srcs generalizing s with
  | nil => rfl
  | cons src srcs ih =>
      unfold foldTicks
      simp only [List.foldl_cons]
      rw [show List.foldl (fun st src => (tickM st src).1) (tickM s src).1 srcs
          = foldTicks (tickM s src).1 srcs from rfl, ih, tick_preserves_sortKeys]

/-! ### Concrete tables mirroring the test suite fixtures -/

/-- The seven-row text column of the search-filter test. -/
def wordsTbl : TableM :=
  [⟨"text", .text,
    [.text "lambent", .text "incandescent", .text "that will be $10.26",
     .text "pi is 3.14159", .text "", .text "weasel", .text "refrigerator"]⟩]

/-- The three-row temporal column of the invalid-filter test. -/
def datesTbl : TableM :=
  [⟨"date", .temporal, [.temporal 1704070800, .temporal 1704160800, .temporal 1704250800]⟩]

/-- The Fibonacci column with three missing values of the null-count test. -/
def fiboTbl : TableM :=
  [⟨"col", .number,
    [.number 1, .missing, .number 2, .number 3, .number 5, .missing,
     .number 13, .number 21, .missing]⟩]

/-- The numeric column with two missing values of the set-membership test. -/
def numericNaTbl : TableM :=
  [⟨"values", .number,
    [.number 1, .number 2, .missing, .number 3, .missing, .number 4, .number 5]⟩]

/-- The two-column frame of the filter-reapplication test, before mutation. -/
def updTbl : TableM :=
  [⟨"a", .number, [.number 3, .number 3, .number 3, .number 1]⟩,
   ⟨"b", .text, [.text "a", .text "b", .text "c", .text "d"]⟩]

/-- The two-column frame of the filter-reapplication test, after mutation. -/
def updTbl2 : TableM :=
  [⟨"a", .number, [.number 3, .number 2, .number 1, .number 1]⟩,
   ⟨"b", .text, [.text "a", .text "b", .text "c", .text "d"]⟩]

/-! ### Claim C2 -/

/-- Claim C2: filters combine left to right.  The first filter's own
combine-with-previous flag is ignored (its mask seeds the result), and each
subsequent filter's per-row mask is combined with that filter's own AND/OR
flag: `[A(AND), B(OR)]` selects exactly the rows where `A(row) OR B(row)`, and
`[A(AND), B(OR), C(AND)]` selects exactly the rows where
`(A(row) OR B(row)) AND C(row)`. -/
theorem claim_c2_filter_chaining (t : TableM) (fA fB fC : RowFilterM)
    (hB : fB.condition = .or) (hC : fC.condition = .and) (r : Nat) (hr : r < numRowsM t) :
    (∀ (c : FilterCondition) (fs : List RowFilterM),
        combinedMaskM t ({ fA with condition := c } :: fs) = combinedMaskM t (fA :: fs))
    ∧ (combinedMaskM t [fA, fB]).getD r false
        = ((filterMaskM t fA).getD r false || (filterMaskM t fB).getD r false)
    ∧ (combinedMaskM t [fA, fB, fC]).getD r false
        = (((filterMaskM t fA).getD r false || (filterMaskM t fB).getD r false)
            && (filterMaskM t fC).getD r false) := by
  have hlen : ∀ g : RowFilterM, (filterMaskM t g).length = numRowsM t := filterMask_length t
  refine ⟨fun c fs => rfl, ?_, ?_⟩
  · show (combineMasks fB.condition (filterMaskM t fA) (filterMaskM t fB)).getD r false = _
    rw [hB]
    unfold combineMasks
    exact zipWith_getD_bool _ _ _ r (by rw [hlen]; exact hr) (by rw [hlen]; exact hr)
  · show (combineMasks fC.condition
        (combineMasks fB.condition (filterMaskM t fA) (filterMaskM t fB))
        (filterMaskM t fC)).getD r false = _
    rw [hB, hC]
    unfold combineMasks
    rw [zipWith_getD_bool _ _ _ r
        (by rw [List.length_zipWith, hlen, hlen]; simpa using hr) (by rw [hlen]; exact hr),
      zipWith_getD_bool _ _ _ r (by rw [hlen]; exact hr) (by rw [hlen]; exact hr)]

/-- The contains-dot filter of the search test. -/
def dotFilter : RowFilterM :=
  ⟨"A58A4497", "text", .textSearch .contains "." false, .and⟩

/-- The ends-with-ent filter of the search test, combined with OR. -/
def entFilter : RowFilterM :=
  ⟨"4BA46699", "text", .textSearch .endsWith "ent" false, .or⟩

/-- The is-empty filter of the search test. -/
def emptyFilter : RowFilterM :=
  ⟨"3F032747", "text", .isEmpty, .and⟩

theorem claim_c2_filter_chaining_witness :
    entFilter.condition = FilterCondition.or ∧ emptyFilter.condition = FilterCondition.and
    ∧ 0 < numRowsM wordsTbl
    ∧ (combinedMaskM wordsTbl [dotFilter, entFilter]).getD 0 false
        = ((filterMaskM wordsTbl dotFilter).getD 0 false
            || (filterMaskM wordsTbl entFilter).getD 0 false) :=
  ⟨rfl, rfl, by decide,
    (claim_c2_filter_chaining wordsTbl dotFilter entFilter emptyFilter rfl rfl 0
      (by decide)).2.1⟩

/-! ### Claim C1 -/

theorem compare_validity_msg (t : TableM) (f : RowFilterM) (op : CompareOp) (lit : String)
    (col : ColumnM) (hk : f.kind = .compare op lit)
    (hcol : lookupColM t f.colName = some col)
    (hparse : parseLiteralM col.typ lit = none) :
    filterValidityM t f = some ("cannot parse literal " ++ lit ++ " against the column type") := by
  unfold filterValidityM kindValidity
  simp only [hcol, hk, hparse]

theorem compare_invalid_mask (t : TableM) (f : RowFilterM) (op : CompareOp) (lit : String)
    (col : ColumnM) (hk : f.kind = .compare op lit)
    (hcol : lookupColM t f.colName = some col)
    (hparse : parseLiteralM col.typ lit = none) :
    filterMaskM t f = List.replicate (numRowsM t) true := by
  unfold filterMaskM kindValidity
  simp only [hcol, hk, hparse]

/-- Claim C1 (amended): for every table and every Compare filter whose literal
cannot be parsed against the referenced column's declared type, the filter's
per-row mask is fail-open (every row passes it, so it does not further
restrict the selection mask); a SetRowFilters request consisting of that
single filter replies with the total unfiltered row count and had_errors =
true, and a subsequent GetState reports that filter with is_valid = false and
a non-empty error message. -/
theorem claim_c1_fail_open_invalid_compare (s : SessionM) (f : RowFilterM)
    (op : CompareOp) (lit : String) (col : ColumnM) (hk : f.kind = .compare op lit)
    (hcol : lookupColM s.table f.colName = some col)
    (hparse : parseLiteralM col.typ lit = none) :
    filterMaskM s.table f = List.replicate (numRowsM s.table) true
    ∧ (setRowFiltersM s [f]).2
        = ⟨numRowsM s.table, true⟩
    ∧ ∃ msg, (getStateM (setRowFiltersM s [f]).1).rowFilters
        = [⟨f, false, some msg⟩] ∧ msg ≠ "" := by
  have hmask := compare_invalid_mask s.table f op lit col hk hcol hparse
  have hval := compare_validity_msg s.table f op lit col hk hcol hparse
  have hsel : selectedIndicesM s.table [f] = List.range (numRowsM s.table) :=
    selected_of_mask_replicate s.table [f] hmask
  refine ⟨hmask, ?_, ?_⟩
  · unfold setRowFiltersM
    have hview := (view_perm s.table [f] s.sortKeys).length_eq
    rw [hsel, List.length_range] at hview
    simp only [hview]
    have : (filterValidityM s.table f).isSome = true := by rw [hval]; rfl
    simp [this]
  · refine ⟨"cannot parse literal " ++ lit ++ " against the column type", ?_, ?_⟩
    · unfold getStateM setRowFiltersM filterStateOf
      simp only [List.map_cons, List.map_nil, hval]
    · intro hc
      have hlen := congrArg String.length hc
      rw [String.length_append, String.length_append,
        show "cannot parse literal ".length = 21 from rfl,
        show " against the column type".length = 24 from rfl,
        show "".length = 0 from rfl] at hlen
      omega

/-- The comparison of a temporal column against the literal `marshmallows`,
from the invalid-filter test. -/
def marshFilter : RowFilterM :=
  ⟨"0DB2F23D", "date", .compare .gt "marshmallows", .and⟩

theorem claim_c1_fail_open_invalid_compare_witness :
    (setRowFiltersM (openSession datesTbl) [marshFilter]).2
      = ⟨numRowsM datesTbl, true⟩ ∧ numRowsM datesTbl = 3 :=
  ⟨(claim_c1_fail_open_invalid_compare (openSession datesTbl) marshFilter .gt "marshmallows"
      ⟨"date", .temporal, [.temporal 1704070800, .temporal 1704160800, .temporal 1704250800]⟩
      rfl (by decide) (by decide)).2.1, by decide⟩

/-- The counterexample frame: a numeric column with a missing value. -/
def cexTbl : TableM :=
  [⟨"a", .number, [.number 1, .missing, .number 2]⟩]

/-- A Compare filter whose literal does not parse against the numeric column. -/
def cexBadFilter : RowFilterM := ⟨"bad", "a", .compare .gt "abc", .and⟩

/-- A valid NotNull filter on the same column. -/
def cexNotNullFilter : RowFilterM := ⟨"nn", "a", .notNull, .and⟩

/-- Claim C1 as stated is false: a filter list that contains an invalid
Compare filter but also a valid restrictive filter does not reply with the
total row count — the fail-open mask leaves the other filters in force. -/
theorem claim_c1_counterexample :
    parseLiteralM ColType.number "abc" = none
    ∧ lookupColM cexTbl "a" = some ⟨"a", .number, [.number 1, .missing, .number 2]⟩
    ∧ (setRowFiltersM (openSession cexTbl) [cexBadFilter, cexNotNullFilter]).2.hadErrors = true
    ∧ (setRowFiltersM (openSession cexTbl) [cexBadFilter, cexNotNullFilter]).2.selectedNumRows = 2
    ∧ numRowsM cexTbl = 3 := by
  refine ⟨by decide, by decide, by decide, ?_, by decide⟩
  decide

/-! ### Claim C3 -/

theorem setMembership_pred_incl (col : ColumnM) (vals : List String) (i : Nat) :
    kindPredM col (.setMembership vals true) i
      = decide (cellAtM col i ∈ vals.filterMap (parseLiteralM col.typ)) := rfl

theorem setMembership_pred_excl (col : ColumnM) (vals : List String) (i : Nat) :
    kindPredM col (.setMembership vals false) i
      = !decide (cellAtM col i ∈ vals.filterMap (parseLiteralM col.typ)) := rfl

/-- Claim C3 (amended): a SetMembership filter with inclusive = true selects
exactly the rows whose value is a member of the set coerced to the column
type, and never selects a row with a missing value; inclusive = false selects
exactly the complement, which does include the rows with a missing value
(an exclusive filter resurrects missing rows); consequently, for every
membership set (empty or not) the inclusive selected-row count plus the
exclusive selected-row count equals the total row count n, not n - k. -/
theorem claim_c3_set_membership (t : TableM) (colName : String) (vals : List String)
    (iid eid : String) (c1 c2 : FilterCondition) (col : ColumnM)
    (hcol : lookupColM t colName = some col) :
    (∀ i, i ∈ selectedIndicesM t [⟨iid, colName, .setMembership vals true, c1⟩]
        ↔ i < numRowsM t ∧ cellAtM col i ∈ vals.filterMap (parseLiteralM col.typ))
    ∧ (∀ i, i ∈ selectedIndicesM t [⟨eid, colName, .setMembership vals false, c2⟩]
        ↔ i < numRowsM t ∧ cellAtM col i ∉ vals.filterMap (parseLiteralM col.typ))
    ∧ (∀ i, cellAtM col i = .missing
        → i ∉ selectedIndicesM t [⟨iid, colName, .setMembership vals true, c1⟩])
    ∧ (∀ i, i < numRowsM t → cellAtM col i = .missing
        → i ∈ selectedIndicesM t [⟨eid, colName, .setMembership vals false, c2⟩])
    ∧ (selectedIndicesM t [⟨iid, colName, .setMembership vals true, c1⟩]).length
        + (selectedIndicesM t [⟨eid, colName, .setMembership vals false, c2⟩]).length
        = numRowsM t := by
  have hvalI : kindValidity col (FilterKind.setMembership vals true) = none := rfl
  have hvalE : kindValidity col (FilterKind.setMembership vals false) = none := rfl
  have hmemI := mem_selected_single t ⟨iid, colName, .setMembership vals true, c1⟩ col hcol hvalI
  have hmemE := mem_selected_single t ⟨eid, colName, .setMembership vals false, c2⟩ col hcol hvalE
  have hI : ∀ i, i ∈ selectedIndicesM t [⟨iid, colName, .setMembership vals true, c1⟩]
      ↔ i < numRowsM t ∧ cellAtM col i ∈ vals.filterMap (parseLiteralM col.typ) := by
    intro i
    rw [hmemI i, setMembership_pred_incl]
    simp
  have hE : ∀ i, i ∈ selectedIndicesM t [⟨eid, colName, .setMembership vals false, c2⟩]
      ↔ i < numRowsM t ∧ cellAtM col i ∉ vals.filterMap (parseLiteralM col.typ) := by
    intro i
    rw [hmemE i, setMembership_pred_excl]
    simp
  refine ⟨hI, hE, ?_, ?_, ?_⟩
  · intro i hmiss hmem
    exact missing_not_mem_parsed col.typ vals (hmiss ▸ (hI i).mp hmem).2
  · intro i hi hmiss
    exact (hE i).mpr ⟨hi, hmiss ▸ missing_not_mem_parsed col.typ vals⟩
  · rw [selected_single_eq t _ col hcol hvalI, selected_single_eq t _ col hcol hvalE]
    have hfun : (kindPredM col (FilterKind.setMembership vals false))
        = fun i => !(kindPredM col (FilterKind.setMembership vals true) i) := rfl
    have hnot : (fun i => !(kindPredM col (FilterKind.setMembership vals true) i))
        = fun i => decide ¬(kindPredM col (FilterKind.setMembership vals true) i = true) := by
      funext i
      cases kindPredM col (FilterKind.setMembership vals true) i <;> rfl
    rw [hfun, ← List.countP_eq_length_filter, ← List.countP_eq_length_filter, hnot,
      ← List.length_eq_countP_add_countP, List.length_range]

/-- The inclusive set-membership filter of the missing-values test. -/
def inclNaFilter : RowFilterM :=
  ⟨"inclusive-filter-id", "values", .setMembership ["1", "2"] true, .and⟩

/-- The exclusive set-membership filter of the missing-values test. -/
def exclNaFilter : RowFilterM :=
  ⟨"exclusive-filter-id", "values", .setMembership ["1", "2"] false, .and⟩

theorem claim_c3_set_membership_witness :
    (selectedIndicesM numericNaTbl [inclNaFilter]).length
      + (selectedIndicesM numericNaTbl [exclNaFilter]).length = numRowsM numericNaTbl
    ∧ (selectedIndicesM numericNaTbl [inclNaFilter]).length = 2
    ∧ (selectedIndicesM numericNaTbl [exclNaFilter]).length = 5 :=
  ⟨(claim_c3_set_membership numericNaTbl "values" ["1", "2"]
      "inclusive-filter-id" "exclusive-filter-id" .and .and
      ⟨"values", .number,
        [.number 1, .number 2, .missing, .number 3, .missing, .number 4, .number 5]⟩
      (by decide)).2.2.2.2,
    by decide, by decide⟩

/-- Claim C3 as stated is false on the code: with the seven-row numeric column
holding two missing values and the non-empty membership set containing 1 and
2, the exclusive filter selects five rows (the two missing rows among them),
so the inclusive count plus the exclusive count is 7 = n, not n - k = 5; a
missing row is selected by the exclusive filter. -/
theorem claim_c3_counterexample :
    (selectedIndicesM numericNaTbl [inclNaFilter]).length = 2
    ∧ (selectedIndicesM numericNaTbl [exclNaFilter]).length = 5
    ∧ numRowsM numericNaTbl = 7
    ∧ ((List.range (numRowsM numericNaTbl)).countP
        (fun i => decide (cellAtM ⟨"values", .number,
          [.number 1, .number 2, .missing, .number 3, .missing, .number 4, .number 5]⟩ i
            = CellValue.missing))) = 2
    ∧ cellAtM ⟨"values", .number,
        [.number 1, .number 2, .missing, .number 3, .missing, .number 4, .number 5]⟩ 2
        = CellValue.missing
    ∧ 2 ∈ selectedIndicesM numericNaTbl [exclNaFilter]
    ∧ (selectedIndicesM numericNaTbl [inclNaFilter]).length
        + (selectedIndicesM numericNaTbl [exclNaFilter]).length ≠ 7 - 2 := by
  refine ⟨by decide, by decide, by decide, by decide, by decide, by decide, by decide⟩

/-! ### Claim C4 -/

/-- Claim C4: on an externally triggered change-detection tick, a session whose
source no longer resolves transitions to the terminal Closed state, emits a
close event, and issues no further replies; a source with the same schema but
different data yields exactly a DataUpdate (schema kept); a source with a
different column set or column types yields exactly a SchemaUpdate (schema
replaced wholesale); an identical source yields no event.  The Closed state is
terminal: further ticks produce no event and no state change. -/
theorem claim_c4_change_classification (s : SessionM) (src : Option TableM) :
    (s.isClosed = true → tickM s src = (s, .noEvent))
    ∧ (s.isClosed = false → src = none →
        tickM s src = ({ s with isClosed := true }, .closeEvent)
        ∧ ∀ req, handleM { s with isClosed := true } req = none)
    ∧ (∀ t, s.isClosed = false → src = some t → schemaOfM t = schemaOfM s.table →
        t ≠ s.table →
        tickM s src = ({ s with table := t }, .dataUpdate)
        ∧ schemaOfM ((tickM s src).1).table = schemaOfM s.table)
    ∧ (∀ t, s.isClosed = false → src = some t → schemaOfM t ≠ schemaOfM s.table →
        tickM s src = ({ s with table := t }, .schemaUpdate)
        ∧ ((tickM s src).1).table = t)
    ∧ (s.isClosed = false → src = some s.table → tickM s src = (s, .noEvent)) := by
  refine ⟨?_, ?_, ?_, ?_, ?_⟩
  · intro hc
    simp [tickM, hc]
  · intro hc hsrc
    subst hsrc
    constructor
    · simp [tickM, hc]
    · intro req
      unfold handleM
      rw [if_pos rfl]
  · intro t hc hsrc hschema hne
    subst hsrc
    have htick : tickM s (some t) = ({ s with table := t }, .dataUpdate) := by
      simp [tickM, hc, hschema, hne]
    exact ⟨htick, by rw [htick]; exact hschema⟩
  · intro t hc hsrc hschema
    subst hsrc
    have htick : tickM s (some t) = ({ s with table := t }, .schemaUpdate) := by
      simp [tickM, hc, hschema]
    exact ⟨htick, by rw [htick]⟩
  · intro hc hsrc
    subst hsrc
    simp [tickM, hc]

theorem claim_c4_change_classification_witness :
    tickM (openSession updTbl) (some updTbl2)
      = ({ openSession updTbl with table := updTbl2 }, UpdateEventM.dataUpdate)
    ∧ tickM (openSession updTbl) none
      = ({ openSession updTbl with isClosed := true }, UpdateEventM.closeEvent)
    ∧ handleM { openSession updTbl with isClosed := true } RequestM.getState = none :=
  ⟨((claim_c4_change_classification (openSession updTbl) (some updTbl2)).2.2.1 updTbl2
      rfl rfl (by decide) (by decide)).1,
    ((claim_c4_change_classification (openSession updTbl) none).2.1 rfl rfl).1,
    ((claim_c4_change_classification (openSession updTbl) none).2.1 rfl rfl).2
      RequestM.getState⟩

/-! ### Claim C5 -/

/-- Claim C5: across any sequence of change-detection ticks, filters are
retained (never dropped), and each filter's reported validity flag and error
message are a function of the current schema and data only: a filter whose
referenced column is gone or type-incompatible reports is_valid = false with
the explanatory message, and one whose column is compatible again reports
is_valid = true with no message and is re-applied to the view through its real
per-row predicate. -/
theorem claim_c5_validity_reflects_current (s : SessionM) (srcs : List (Option TableM)) :
    (foldTicks s srcs).filters = s.filters
    ∧ (getStateM (foldTicks s srcs)).rowFilters
        = s.filters.map (filterStateOf (foldTicks s srcs).table)
    ∧ (∀ f, filterValidityM (foldTicks s srcs).table f = none →
        filterStateOf (foldTicks s srcs).table f = ⟨f, true, none⟩)
    ∧ (∀ f msg, filterValidityM (foldTicks s srcs).table f = some msg →
        filterStateOf (foldTicks s srcs).table f = ⟨f, false, some msg⟩)
    ∧ (∀ f col, lookupColM (foldTicks s srcs).table f.colName = some col →
        kindValidity col f.kind = none →
        filterMaskM (foldTicks s srcs).table f
          = (List.range (numRowsM (foldTicks s srcs).table)).map (kindPredM col f.kind)) := by
  refine ⟨foldTicks_filters s srcs, ?_, ?_, ?_, ?_⟩
  · unfold getStateM
    rw [foldTicks_filters s srcs]
  · intro f hval
    unfold filterStateOf
    rw [hval]
  · intro f msg hval
    unfold filterStateOf
    rw [hval]
  · intro f col hcol hval
    exact filterMask_valid _ f col hcol hval

/-- The frame of the invalid-filter-preservation test: a text column x and a
numeric column y. -/
def presTbl1 : TableM :=
  [⟨"x", .text, [.text "", .text "a", .text "b"]⟩,
   ⟨"y", .number, [.number 1, .number 2, .number 3]⟩]

/-- The same frame after the x column is removed. -/
def presTbl2 : TableM :=
  [⟨"y", .number, [.number 1, .number 2, .number 3]⟩]

/-- The frame after the x column is re-added (at the end, as in R). -/
def presTbl3 : TableM :=
  [⟨"y", .number, [.number 1, .number 2, .number 3]⟩,
   ⟨"x", .text, [.text "", .text "a", .text "b"]⟩]

/-- The frame after the x column is re-typed to numeric. -/
def presTbl4 : TableM :=
  [⟨"y", .number, [.number 1, .number 2, .number 3]⟩,
   ⟨"x", .number, [.number 1, .number 2, .number 3]⟩]

/-- The is-empty filter on column x. -/
def xIsEmptyFilter : RowFilterM := ⟨"0DB2F23D", "x", .isEmpty, .and⟩

/-- The session of the preservation test after the filter is set. -/
def presSession : SessionM := ⟨presTbl1, [xIsEmptyFilter], [], false⟩

theorem claim_c5_validity_reflects_current_witness :
    (foldTicks presSession [some presTbl2, some presTbl3, some presTbl4]).filters
      = [xIsEmptyFilter]
    ∧ (getStateM presSession).numRows = 1
    ∧ (tickM presSession (some presTbl2)).2 = UpdateEventM.schemaUpdate
    ∧ (getStateM (foldTicks presSession [some presTbl2])).rowFilters.map
        (fun fs => (fs.isValid, fs.errorMessage.isSome)) = [(false, true)]
    ∧ (getStateM (foldTicks presSession [some presTbl2])).numRows = 3
    ∧ (getStateM (foldTicks presSession [some presTbl2, some presTbl3])).rowFilters.map
        (fun fs => (fs.isValid, fs.errorMessage.isSome)) = [(true, false)]
    ∧ (getStateM (foldTicks presSession [some presTbl2, some presTbl3])).numRows = 1
    ∧ (getStateM (foldTicks presSession
        [some presTbl2, some presTbl3, some presTbl4])).rowFilters.map
        (fun fs => (fs.isValid, fs.errorMessage.isSome)) = [(false, true)]
    ∧ (getStateM (foldTicks presSession
        [some presTbl2, some presTbl3, some presTbl4])).numRows = 3 :=
  ⟨(claim_c5_validity_reflects_current presSession
      [some presTbl2, some presTbl3, some presTbl4]).1,
    by decide, by decide, by decide, by decide, by decide, by decide, by decide, by decide⟩

/-! ### Claim C6 -/

/-- The greater-than-1 filter on column a of the reapplication test. -/
def gtOneFilter : RowFilterM := ⟨"0DB2F23D", "a", .compare .gt "1", .and⟩

/-- Claim C6: for the numeric column [3,3,3,1], setting the filter > 1 (AND)
selects 3 rows; after an ascending sort on that column and a mutation of the
source to [3,2,1,1] (classified as a DataUpdate), the filter and sort are
re-applied, so re-querying the view yields exactly 2 rows with the values in
the order [2,3] (companion column in the order [b,a]), and subsequent GetState
calls report the rebuilt view shape. -/
theorem claim_c6_update_reapplies_filters :
    (setRowFiltersM (openSession updTbl) [gtOneFilter]).2 = ⟨3, false⟩
    ∧ (tickM (setSortColumnsM (setRowFiltersM (openSession updTbl) [gtOneFilter]).1
        [⟨0, true⟩]) (some updTbl2)).2 = UpdateEventM.dataUpdate
    ∧ getDataValuesM (tickM (setSortColumnsM
          (setRowFiltersM (openSession updTbl) [gtOneFilter]).1 [⟨0, true⟩])
          (some updTbl2)).1
        [⟨0, [0, 1, 2, 3, 4]⟩, ⟨1, [0, 1, 2, 3, 4]⟩]
      = [[.formatted "2", .formatted "3"], [.formatted "b", .formatted "a"]]
    ∧ (getStateM (tickM (setSortColumnsM
          (setRowFiltersM (openSession updTbl) [gtOneFilter]).1 [⟨0, true⟩])
          (some updTbl2)).1).numRows = 2
    ∧ (getStateM (tickM (setSortColumnsM
          (setRowFiltersM (openSession updTbl) [gtOneFilter]).1 [⟨0, true⟩])
          (some updTbl2)).1).numRowsUnfiltered = 4 := by
  refine ⟨by decide, by decide, ?_, by decide, by decide⟩
  decide

/-! ### Claim C7 -/

/-- Claim C7: the NullCount profile is the number of missing values of the
column restricted to the current view (after filters and sort), not in the raw
source: with no filters it is the raw missing count, after a NotNull filter on
that column it is 0, and after an IsNull filter on that column it is again the
full missing count. -/
theorem claim_c7_null_count_over_view (t : TableM) (ks : List SortKeyM) (colIdx : Nat)
    (col : ColumnM) (hcol : t.get? colIdx = some col) :
    (∀ fs, nullCountM ⟨t, fs, ks, false⟩ colIdx
        = ((viewIndicesM t fs ks).map (cellAtM col)).countP fun c => decide (c = .missing))
    ∧ nullCountM ⟨t, [], ks, false⟩ colIdx
        = ((List.range (numRowsM t)).map (cellAtM col)).countP (fun c => decide (c = .missing))
    ∧ (∀ f : RowFilterM, f.kind = .notNull → lookupColM t f.colName = some col →
        nullCountM ⟨t, [f], ks, false⟩ colIdx = 0)
    ∧ (∀ f : RowFilterM, f.kind = .isNull → lookupColM t f.colName = some col →
        nullCountM ⟨t, [f], ks, false⟩ colIdx
          = ((List.range (numRowsM t)).map (cellAtM col)).countP
              fun c => decide (c = .missing)) := by
  have hbase : ∀ fs, nullCountM ⟨t, fs, ks, false⟩ colIdx
      = ((viewIndicesM t fs ks).map (cellAtM col)).countP fun c => decide (c = .missing) := by
    intro fs
    unfold nullCountM
    simp only [hcol]
  have hviewcount : ∀ fs (p : CellValue → Bool),
      ((viewIndicesM t fs ks).map (cellAtM col)).countP p
        = ((selectedIndicesM t fs).map (cellAtM col)).countP p := fun fs p =>
    ((view_perm t fs ks).map (cellAtM col)).countP_eq p
  refine ⟨hbase, ?_, ?_, ?_⟩
  · rw [hbase, hviewcount]
    have hsel : selectedIndicesM t [] = List.range (numRowsM t) :=
      selected_of_mask_replicate t [] rfl
    rw [hsel]
  · intro f hk hcolName
    have hval : kindValidity col f.kind = none := by rw [hk]; rfl
    rw [hbase, hviewcount]
    rw [List.countP_eq_zero]
    intro a ha
    rcases List.mem_map.mp ha with ⟨si, hsi, rfl⟩
    have := (mem_selected_single t f col hcolName hval si).mp hsi
    rw [hk] at this
    have hpred : decide (cellAtM col si ≠ CellValue.missing) = true := this.2
    simp only [decide_eq_true_eq] at hpred ⊢
    exact fun hc => hpred hc
  · intro f hk hcolName
    have hval : kindValidity col f.kind = none := by rw [hk]; rfl
    rw [hbase, hviewcount, selected_single_eq t f col hcolName hval, hk]
    rw [List.countP_map, List.countP_filter, List.countP_map]
    congr 1
    funext i
    simp [Function.comp, kindPredM, Bool.and_self]

/-- The NotNull filter of the null-count test. -/
def fiboNotNullFilter : RowFilterM := ⟨"048D4D03", "col", .notNull, .and⟩

/-- The IsNull filter of the null-count test. -/
def fiboIsNullFilter : RowFilterM := ⟨"87E2E016", "col", .isNull, .and⟩

theorem claim_c7_null_count_over_view_witness :
    nullCountM ⟨fiboTbl, [], [], false⟩ 0 = 3
    ∧ nullCountM ⟨fiboTbl, [fiboNotNullFilter], [], false⟩ 0 = 0
    ∧ nullCountM ⟨fiboTbl, [fiboIsNullFilter], [], false⟩ 0 = 3
    ∧ (setRowFiltersM (openSession fiboTbl) [fiboNotNullFilter]).2 = ⟨6, false⟩
    ∧ (setRowFiltersM (openSession fiboTbl) [fiboIsNullFilter]).2 = ⟨3, false⟩ :=
  ⟨by decide,
    (claim_c7_null_count_over_view fiboTbl [] 0
      ⟨"col", .number,
        [.number 1, .missing, .number 2, .number 3, .number 5, .missing,
         .number 13, .number 21, .missing]⟩ (by decide)).2.2.1
      fiboNotNullFilter rfl (by decide),
    by decide, by decide, by decide⟩

/-! ### Claim C8 -/

/-- Claim C8: the sort engine is a stable multi-key sort.  The view is a
permutation of the selection; with no sort keys it preserves source row order
restricted to the selection mask; re-sorting the already sorted view with the
same keys yields the identical row order (idempotence); the view is sorted by
the multi-key relation, and rows tied under all keys appear in source row
order (stability); ascending = false reverses only that key's comparison
while leaving the tie-break chain unchanged; and adding a second key changes
the relative order only of rows tied on the first key. -/
theorem claim_c8_sort_engine (t : TableM) (fs : List RowFilterM) (ks : List SortKeyM) :
    (viewIndicesM t fs ks).Perm (selectedIndicesM t fs)
    ∧ viewIndicesM t fs [] = selectedIndicesM t fs
    ∧ List.insertionSort (rowLeM t ks) (viewIndicesM t fs ks) = viewIndicesM t fs ks
    ∧ List.Sorted (rowLeM t ks) (viewIndicesM t fs ks)
    ∧ (∀ a b, a ∈ viewIndicesM t fs ks → b ∈ viewIndicesM t fs ks → a ≠ b →
        (∀ k ∈ ks, keyCellM t k a = keyCellM t k b) →
        ((viewIndicesM t fs ks).indexOf a < (viewIndicesM t fs ks).indexOf b ↔ a < b))
    ∧ (∀ (c : Nat) (ks2 : List SortKeyM) (i j : Nat),
        (keyCellM t ⟨c, true⟩ i ≠ keyCellM t ⟨c, true⟩ j →
          (rowLeM t (⟨c, false⟩ :: ks2) i j ↔ rowLeM t (⟨c, true⟩ :: ks2) j i))
        ∧ (keyCellM t ⟨c, true⟩ i = keyCellM t ⟨c, true⟩ j →
          ((rowLeM t (⟨c, false⟩ :: ks2) i j ↔ rowLeM t ks2 i j)
            ∧ (rowLeM t (⟨c, true⟩ :: ks2) i j ↔ rowLeM t ks2 i j))))
    ∧ (∀ (k1 k2 : SortKeyM) (a b : Nat),
        a ∈ selectedIndicesM t fs → b ∈ selectedIndicesM t fs →
        keyCellM t k1 a ≠ keyCellM t k1 b →
        ((viewIndicesM t fs [k1]).indexOf a < (viewIndicesM t fs [k1]).indexOf b
          ↔ (viewIndicesM t fs [k1, k2]).indexOf a
              < (viewIndicesM t fs [k1, k2]).indexOf b)) := by
  refine ⟨view_perm t fs ks, view_nil t fs, view_sort_fixpoint t fs ks,
    view_sorted t fs ks, ?_, ?_, ?_⟩
  · intro a b ha hb hab htied
    rw [sorted_indexOf_lt_iff (view_sorted t fs ks) ha hb hab,
      rowLe_tied t ks a b htied]
    exact ⟨fun h => lt_of_le_of_ne h hab, le_of_lt⟩
  · intro c ks2 i j
    constructor
    · intro hne
      rw [rowLe_cons_ne t ⟨c, false⟩ ks2 i j hne,
        rowLe_cons_ne t ⟨c, true⟩ ks2 j i (Ne.symm hne)]
      exact Iff.rfl
    · intro heq
      exact ⟨rowLe_cons_tie t ⟨c, false⟩ ks2 i j heq, rowLe_cons_tie t ⟨c, true⟩ ks2 i j heq⟩
  · intro k1 k2 a b ha hb hne
    have hab : a ≠ b := fun hc => hne (by rw [hc])
    have ha1 : a ∈ viewIndicesM t fs [k1] := (view_perm t fs [k1]).mem_iff.mpr ha
    have hb1 : b ∈ viewIndicesM t fs [k1] := (view_perm t fs [k1]).mem_iff.mpr hb
    have ha2 : a ∈ viewIndicesM t fs [k1, k2] := (view_perm t fs [k1, k2]).mem_iff.mpr ha
    have hb2 : b ∈ viewIndicesM t fs [k1, k2] := (view_perm t fs [k1, k2]).mem_iff.mpr hb
    rw [sorted_indexOf_lt_iff (view_sorted t fs [k1]) ha1 hb1 hab,
      sorted_indexOf_lt_iff (view_sorted t fs [k1, k2]) ha2 hb2 hab,
      rowLe_cons_ne t k1 [] a b hne, rowLe_cons_ne t k1 [k2] a b hne]

theorem claim_c8_sort_engine_witness :
    viewIndicesM updTbl2 [] [⟨0, true⟩] = [2, 3, 1, 0]
    ∧ ((viewIndicesM updTbl2 [] [⟨0, true⟩]).indexOf 2
        < (viewIndicesM updTbl2 [] [⟨0, true⟩]).indexOf 3 ↔ 2 < 3) :=
  ⟨by decide,
    (claim_c8_sort_engine updTbl2 [] [⟨0, true⟩]).2.2.2.2.1 2 3
      (by decide) (by decide) (by decide)
      (by intro k hk; rw [List.mem_singleton] at hk; subst hk; decide)⟩

/-! ### Claim C9 -/

theorem filterMap_get?_eq (view : List Nat) (g : Nat → ColumnValueM) (idx : List Nat) :
    (idx.filterMap fun ri => (view.get? ri).map fun si => g si)
      = (idx.filter fun ri => decide (ri < view.length)).map fun ri => g (view.getD ri 0) := by
  induction idx with
  | nil => rfl
  | cons ri rest ih =>
      by_cases h : ri < view.length
      · have hsome : view.get? ri = some view[ri] := by
          rw [List.get?_eq_getElem?, List.getElem?_eq_getElem h]
        rw [List.filterMap_cons, hsome]
        simp only [Option.map_some']
        rw [List.filter_cons_of_pos (by simpa using h), List.map_cons, ih]
        congr 2
        rw [List.getD_eq_getElem _ _ h]
      · have hnone : view.get? ri = none := by
          rw [List.get?_eq_getElem?, List.getElem?_eq_none (by omega)]
        rw [List.filterMap_cons, hnone]
        simp only [Option.map_none']
        rw [List.filter_cons_of_neg (by simpa using h), ih]

/-- The ten-row frame of the index-selection test (columns x = 1..10). -/
def tenTbl : TableM :=
  [⟨"x", .number,
    [.number 1, .number 2, .number 3, .number 4, .number 5,
     .number 6, .number 7, .number 8, .number 9, .number 10]⟩]

/-- Claim C9: for every GetDataValues request, out-of-range row or column
indices are silently dropped from the reply rather than failing the call: the
reply is exactly the in-range part of the request, and requesting rows [0,10]
of a 10-row column returns exactly the one value for row 0. -/
theorem claim_c9_out_of_range_dropped :
    (∀ (s : SessionM) (cols : List ColumnSelectionM),
      getDataValuesM s cols
        = (cols.filter fun c => decide (c.columnIndex < s.table.length)).map fun c =>
            (c.rowIndices.filter fun ri =>
                decide (ri < (viewIndicesM s.table s.filters s.sortKeys).length)).map fun ri =>
              formatCellM (cellAtM ((s.table.get? c.columnIndex).getD ⟨"", .text, []⟩)
                ((viewIndicesM s.table s.filters s.sortKeys).getD ri 0)))
    ∧ getDataValuesM (openSession tenTbl) [⟨0, [0, 10]⟩] = [[.formatted "1"]]
    ∧ getDataValuesM (openSession tenTbl) [⟨0, [0, 9]⟩]
        = [[.formatted "1", .formatted "10"]]
    ∧ getDataValuesM (openSession tenTbl) [⟨1, [0]⟩] = [] := by
  refine ⟨?_, by decide, by decide, by decide⟩
  intro s cols
  unfold getDataValuesM
  apply List.map_congr_left
  intro c _
  exact filterMap_get?_eq _ _ c.rowIndices

/-! ### Claim C10 -/

/-- The six-column frame of the special-values test. -/
def specialTbl : TableM :=
  [⟨"a", .number, [.number 1, .missing, .nan, .posInf, .negInf]⟩,
   ⟨"b", .text, [.text "a", .text "b", .text "c", .text "d", .missing]⟩,
   ⟨"c", .boolean, [.bool true, .bool false, .missing, .missing, .missing]⟩,
   ⟨"d", .integer, [.intV 1, .intV 2, .intV 3, .intV 4, .missing]⟩,
   ⟨"e", .complexT,
    [.complexV 0 0, .complexV 0 0, .complexV 0 0, .complexV 0 0, .missing]⟩,
   ⟨"f", .listT,
    [.nullEntry, .listEntry "<list [3]>", .listEntry "<list [3]>",
     .listEntry "<list [3]>", .listEntry "<list [3]>"]⟩]

/-- Claim C10: every cell of a GetDataValues reply is either a formatted
string or one of the fixed special-value codes, with NULL list entries mapping
to code 0, missing values (NA) to code 1 uniformly across numeric, character,
boolean, integer and complex columns, NaN to 2, positive infinity to 10 and
negative infinity to 11. -/
theorem claim_c10_special_value_codes :
    (∀ cell : CellValue,
      (∃ str, formatCellM cell = .formatted str)
        ∨ formatCellM cell ∈ [ColumnValueM.special 0, .special 1, .special 2,
            .special 10, .special 11])
    ∧ formatCellM .nullEntry = .special 0
    ∧ formatCellM .missing = .special 1
    ∧ formatCellM .nan = .special 2
    ∧ formatCellM .posInf = .special 10
    ∧ formatCellM .negInf = .special 11
    ∧ getDataValuesM (openSession specialTbl) [⟨0, [0, 1, 2, 3, 4]⟩]
        = [[.formatted "1", .special 1, .special 2, .special 10, .special 11]]
    ∧ getDataValuesM (openSession specialTbl) [⟨1, [4]⟩, ⟨2, [4]⟩, ⟨3, [4]⟩, ⟨4, [4]⟩]
        = [[.special 1], [.special 1], [.special 1], [.special 1]]
    ∧ getDataValuesM (openSession specialTbl) [⟨5, [0]⟩] = [[.special 0]] := by
  refine ⟨?_, rfl, rfl, rfl, rfl, rfl, by decide, by decide, by decide⟩
  intro cell
  cases cell <;> first
    | exact Or.inl ⟨_, rfl⟩
    | (right; decide)

end DataExplorer
